import Mathlib

/-!
Verification of the mp3-auto-organizer pipeline (fingerprint matching,
release selection, filename sanitization, tag diffing, track backfill,
move semantics) against its natural-language specification.

The Python sources under `src/` are shallowly embedded: pure fragments
become Lean functions, external collaborators (AcoustID, MusicBrainz,
mutagen, the filesystem) are modelled by explicit inputs and explicit
state records, and Python exceptions become `Except` results.
-/

namespace MP3Org

/-! ## Identifier: AcoustID match candidates (src/fingerprint.py)

A match candidate is one entry of the AcoustID result list: a dict with an
optional `score` (read via `x.get("score", 0)`) and a list of embedded
recording ids.  Scores are modelled as rationals. -/

structure Candidate where
  score : Option ℚ
  recordings : List String
  deriving DecidableEq, Repr

/-- `x.get("score", 0)` of fingerprint.py line 97/99. -/
def cScore (c : Candidate) : ℚ := c.score.getD 0

/-- Accumulator loop of Python `max(xs, key=f)`: the running maximum is
replaced only on a strictly greater key, so the first of equal maxima is
kept. -/
def pyMaxGo {α β : Type} [LinearOrder β] (f : α → β) (acc : α) : List α → α
  | [] => acc
  | y :: ys => pyMaxGo f (if f acc < f y then y else acc) ys

/-- Python `max(xs, key=f)`, returning `none` on an empty list (where
Python would raise `ValueError`; the callers guard against it). -/
def pyMaxBy {α β : Type} [LinearOrder β] (f : α → β) : List α → Option α
  | [] => none
  | x :: xs => some (pyMaxGo f x xs)

/-- `get_best_match` (fingerprint.py lines 83-102): `None` on an empty
list, otherwise the score-maximal candidate, rejected when its score is
below 0.5. -/
def getBestMatch (ms : List Candidate) : Option Candidate :=
  match pyMaxBy cScore ms with
  | none => none
  | some best => if cScore best < 1/2 then none else some best

theorem pyMaxGo_spec {α β : Type} [LinearOrder β] (f : α → β) (xs : List α) (acc : α) :
    (∀ y ∈ xs, f y ≤ f (pyMaxGo f acc xs)) ∧ f acc ≤ f (pyMaxGo f acc xs) ∧
    (pyMaxGo f acc xs = acc ∨ ∃ l₁ l₂, xs = l₁ ++ pyMaxGo f acc xs :: l₂ ∧
      f acc < f (pyMaxGo f acc xs) ∧ ∀ y ∈ l₁, f y < f (pyMaxGo f acc xs)) := by
  induction xs generalizing acc with
  | nil => simp [pyMaxGo]
  | cons y ys ih =>
    by_cases hy : f acc < f y
    · simp only [pyMaxGo, if_pos hy]
      obtain ⟨h1, h2, h3⟩ := ih y
      refine ⟨?_, le_of_lt (lt_of_lt_of_le hy h2), ?_⟩
      · intro z hz
        rcases List.mem_cons.mp hz with hz | hz
        · exact hz ▸ h2
        · exact h1 z hz
      · rcases h3 with h3 | ⟨l₁, l₂, hsplit, hlt, hall⟩
        · refine Or.inr ⟨[], ys, ?_, ?_, ?_⟩
          · rw [h3]; rfl
          · rw [h3]; exact hy
          · intro z hz; exact absurd hz (List.not_mem_nil z)
        · refine Or.inr ⟨y :: l₁, l₂, ?_, lt_trans hy hlt, ?_⟩
          · rw [List.cons_append, ← hsplit]
          · intro z hz
            rcases List.mem_cons.mp hz with hz | hz
            · exact hz ▸ hlt
            · exact hall z hz
    · simp only [pyMaxGo, if_neg hy]
      obtain ⟨h1, h2, h3⟩ := ih acc
      refine ⟨?_, h2, ?_⟩
      · intro z hz
        rcases List.mem_cons.mp hz with hz | hz
        · exact hz ▸ le_trans (le_of_not_lt hy) h2
        · exact h1 z hz
      · rcases h3 with h3 | ⟨l₁, l₂, hsplit, hlt, hall⟩
        · exact Or.inl h3
        · refine Or.inr ⟨y :: l₁, l₂, ?_, hlt, ?_⟩
          · rw [List.cons_append, ← hsplit]
          · intro z hz
            rcases List.mem_cons.mp hz with hz | hz
            · exact hz ▸ lt_of_le_of_lt (le_of_not_lt hy) hlt
            · exact hall z hz

theorem pyMaxGo_mem {α β : Type} [LinearOrder β] (f : α → β) (xs : List α) (acc : α) :
    pyMaxGo f acc xs = acc ∨ pyMaxGo f acc xs ∈ xs := by
  induction xs generalizing acc with
  | nil => exact Or.inl rfl
  | cons y ys ih =>
    simp only [pyMaxGo]
    by_cases hy : f acc < f y
    · simp only [if_pos hy]
      rcases ih y with h | h
      · right; rw [h]; exact List.mem_cons_self y ys
      · exact Or.inr (List.mem_cons_of_mem y h)
    · simp only [if_neg hy]
      rcases ih acc with h | h
      · exact Or.inl h
      · exact Or.inr (List.mem_cons_of_mem y h)

/-- If one element of the list strictly dominates every other element,
Python `max` returns it. -/
theorem pyMaxBy_unique {α β : Type} [LinearOrder β] (f : α → β) (xs : List α)
    (c : α) (hc : c ∈ xs) (hdom : ∀ z ∈ xs, z ≠ c → f z < f c) :
    pyMaxBy f xs = some c := by
  match xs, hc with
  | x :: rest, hc =>
    simp only [pyMaxBy, Option.some_inj]
    by_contra hne
    have hmem : pyMaxGo f x rest = x ∨ pyMaxGo f x rest ∈ rest := pyMaxGo_mem f rest x
    have hmem2 : pyMaxGo f x rest ∈ x :: rest := by
      rcases hmem with h | h
      · rw [h]; exact List.mem_cons_self x rest
      · exact List.mem_cons_of_mem x h
    have hlt : f (pyMaxGo f x rest) < f c := hdom _ hmem2 hne
    have hge : f c ≤ f (pyMaxGo f x rest) := by
      rcases List.mem_cons.mp hc with h | h
      · rw [h] at hlt ⊢; exact (pyMaxGo_spec f rest x).2.1
      · exact (pyMaxGo_spec f rest x).1 c h
    exact absurd hge (not_le_of_lt hlt)

/-- C1: for every non-empty list of match candidates, `get_best_match`
returns the first-encountered candidate of maximum confidence score, and
returns `None` exactly when the list is empty or the maximum score is
below 0.5; adding a candidate whose score exceeds the current maximum
never decreases the score of the selected candidate. -/
theorem C1_getBestMatch_correct (l : List Candidate) :
    (getBestMatch l = none ↔ l = [] ∨ ∀ c ∈ l, cScore c < 1/2) ∧
    (∀ b, getBestMatch l = some b →
      1/2 ≤ cScore b ∧ (∀ c ∈ l, cScore c ≤ cScore b) ∧
      ∃ l₁ l₂, l = l₁ ++ b :: l₂ ∧ ∀ c ∈ l₁, cScore c < cScore b) ∧
    (∀ l₁ l₂ c b, l = l₁ ++ l₂ → getBestMatch l = some b →
      cScore b < cScore c →
      ∃ b2, getBestMatch (l₁ ++ c :: l₂) = some b2 ∧ cScore b ≤ cScore b2) := by
  refine ⟨?_, ?_, ?_⟩
  · match l with
    | [] => simp [getBestMatch, pyMaxBy]
    | x :: xs =>
      simp only [getBestMatch, pyMaxBy]
      obtain ⟨h1, h2, _⟩ := pyMaxGo_spec cScore xs x
      constructor
      · intro h
        by_cases hlow : cScore (pyMaxGo cScore x xs) < 1/2
        · refine Or.inr ?_
          intro z hz
          rcases List.mem_cons.mp hz with hz | hz
          · exact lt_of_le_of_lt (hz ▸ h2) hlow
          · exact lt_of_le_of_lt (h1 z hz) hlow
        · rw [if_neg hlow] at h; exact absurd h (Option.some_ne_none _)
      · intro h
        rcases h with h | h
        · exact absurd h (List.cons_ne_nil x xs)
        · have hmem : pyMaxGo cScore x xs ∈ x :: xs := by
            rcases pyMaxGo_mem cScore xs x with hm | hm
            · rw [hm]; exact List.mem_cons_self x xs
            · exact List.mem_cons_of_mem x hm
          rw [if_pos (h _ hmem)]
  · intro b hb
    match l, hb with
    | x :: xs, hb =>
      simp only [getBestMatch, pyMaxBy] at hb
      by_cases hlow : cScore (pyMaxGo cScore x xs) < 1/2
      · rw [if_pos hlow] at hb; exact absurd hb (Option.noConfusion)
      · rw [if_neg hlow] at hb
        have hbeq : pyMaxGo cScore x xs = b := Option.some_inj.mp hb
        obtain ⟨h1, h2, h3⟩ := pyMaxGo_spec cScore xs x
        rw [hbeq] at h1 h2 h3 hlow
        refine ⟨le_of_not_lt hlow, ?_, ?_⟩
        · intro z hz
          rcases List.mem_cons.mp hz with hz | hz
          · exact hz ▸ h2
          · exact h1 z hz
        · rcases h3 with h3 | ⟨l₁, l₂, hsplit, hlt, hall⟩
          · exact ⟨[], xs, by rw [← h3]; rfl, by intro z hz; exact absurd hz (List.not_mem_nil z)⟩
          · refine ⟨x :: l₁, l₂, by rw [List.cons_append, ← hsplit], ?_⟩
            intro z hz
            rcases List.mem_cons.mp hz with hz | hz
            · exact hz ▸ hlt
            · exact hall z hz
  · intro l₁ l₂ c b hsplit hb hgt
    have hspec := pyMaxGo_spec cScore
    have hmax : ∀ z ∈ l, cScore z ≤ cScore b := by
      intro z hz
      match l, hb with
      | x :: xs, hb =>
        simp only [getBestMatch, pyMaxBy] at hb
        by_cases hlow : cScore (pyMaxGo cScore x xs) < 1/2
        · rw [if_pos hlow] at hb; exact absurd hb (Option.noConfusion)
        · rw [if_neg hlow] at hb
          have hbeq : pyMaxGo cScore x xs = b := Option.some_inj.mp hb
          obtain ⟨h1, h2, _⟩ := pyMaxGo_spec cScore xs x
          rw [hbeq] at h1 h2
          rcases List.mem_cons.mp hz with hz | hz
          · exact hz ▸ h2
          · exact h1 z hz
    have hhalf : 1/2 ≤ cScore b := by
      match l, hb with
      | x :: xs, hb =>
        simp only [getBestMatch, pyMaxBy] at hb
        by_cases hlow : cScore (pyMaxGo cScore x xs) < 1/2
        · rw [if_pos hlow] at hb; exact absurd hb (Option.noConfusion)
        · rw [if_neg hlow] at hb
          exact (Option.some_inj.mp hb) ▸ le_of_not_lt hlow
    have hcmem : c ∈ l₁ ++ c :: l₂ := List.mem_append_right l₁ (List.mem_cons_self c l₂)
    have hdom : ∀ z ∈ l₁ ++ c :: l₂, z ≠ c → cScore z < cScore c := by
      intro z hz hne
      have hzl : z ∈ l := by
        rw [hsplit]
        rcases List.mem_append.mp hz with hz | hz
        · exact List.mem_append_left l₂ hz
        · rcases List.mem_cons.mp hz with hz | hz
          · exact absurd hz hne
          · exact List.mem_append_right l₁ hz
      exact lt_of_le_of_lt (hmax z hzl) hgt
    have hsel : pyMaxBy cScore (l₁ ++ c :: l₂) = some c := pyMaxBy_unique cScore _ c hcmem hdom
    refine ⟨c, ?_, le_of_lt hgt⟩
    simp only [getBestMatch, hsel]
    rw [if_neg (not_lt_of_le (le_trans hhalf (le_of_lt hgt)))]

/-- Witness for C1 at a concrete candidate list. -/
theorem C1_getBestMatch_correct_witness :
    ∃ b2, getBestMatch ([⟨some (3/10), ["r1"]⟩] ++ ⟨some (9/10), ["r2"]⟩ ::
        [⟨some (6/10), ["r3"]⟩]) = some b2 ∧
      cScore ⟨some (6/10), ["r3"]⟩ ≤ cScore b2 :=
  (C1_getBestMatch_correct [⟨some (3/10), ["r1"]⟩, ⟨some (6/10), ["r3"]⟩]).2.2
    [⟨some (3/10), ["r1"]⟩] [⟨some (6/10), ["r3"]⟩] ⟨some (9/10), ["r2"]⟩
    ⟨some (6/10), ["r3"]⟩ rfl
    (by norm_num [getBestMatch, pyMaxBy, pyMaxGo, cScore])
    (by norm_num [cScore])

/-- If one element strictly dominates everything else, `pyMaxGo` returns it. -/
theorem pyMaxGo_unique {α β : Type} [LinearOrder β] (f : α → β) (xs : List α) (acc : α)
    (c : α) (hc : c = acc ∨ c ∈ xs)
    (hdom : ∀ z, (z = acc ∨ z ∈ xs) → z ≠ c → f z < f c) :
    pyMaxGo f acc xs = c := by
  by_contra hne
  have hmem : pyMaxGo f acc xs = acc ∨ pyMaxGo f acc xs ∈ xs := pyMaxGo_mem f xs acc
  have hlt : f (pyMaxGo f acc xs) < f c := hdom _ hmem hne
  have hge : f c ≤ f (pyMaxGo f acc xs) := by
    rcases hc with hc | hc
    · rw [hc]; exact (pyMaxGo_spec f xs acc).2.1
    · exact (pyMaxGo_spec f xs acc).1 c hc
  exact absurd hge (not_le_of_lt hlt)

/-! ## Resolver: MusicBrainz release disambiguation (src/metadata.py)

Remote release data is modelled at the interface boundary: a release
carries the fields `_select_best_release` and `fetch_release_tracks`
read.  Integer-valued positions/counts arrive already parsed; the
extracted artist-credit display name is carried as an opaque optional
string. -/

/-- One entry of a medium's `track-list`: the embedded recording id and
title, and the track's `position` field (absent when the key is missing). -/
structure RelTrack where
  recordingId : Option String
  recordingTitle : Option String
  position : Option Int
  deriving DecidableEq, Repr

/-- One entry of a release's `medium-list`. -/
structure Medium where
  position : Option Int
  trackCount : Option Int
  trackList : List RelTrack
  deriving DecidableEq, Repr

/-- One release of a recording's `release-list`, with its release-group
status/type fields used by `score_release`. -/
structure Release where
  status : String
  primaryType : String
  secondaryTypes : List String
  title : Option String
  id : Option String
  albumArtistName : Option String
  date : String
  mediumList : List Medium
  deriving DecidableEq, Repr

/-- ASCII core of Python `str.lower()`. -/
def pyLowerChar (c : Char) : Char :=
  if 'A' ≤ c ∧ c ≤ 'Z' then Char.ofNat (c.toNat + 32) else c

/-- Python `s.lower()` on a string. -/
def pyLower (s : String) : String := ⟨s.data.map pyLowerChar⟩

/-- Digit run of a Python decimal int literal, allowing single
underscores between digits (`int("1_2") == 12`, `int("1__2")` fails). -/
def pyDigitsGo (acc : Nat) : List Char → Option Nat
  | [] => some acc
  | '_' :: c :: rest =>
      if c.isDigit then pyDigitsGo (acc * 10 + (c.toNat - 48)) rest else none
  | c :: rest =>
      if c.isDigit then pyDigitsGo (acc * 10 + (c.toNat - 48)) rest else none

/-- A Python digit run must start (and end) with a digit. -/
def pyDigitsStart : List Char → Option Nat
  | [] => none
  | c :: rest => if c.isDigit then pyDigitsGo (c.toNat - 48) rest else none

/-- Whitespace stripped by Python `int()` around a numeral. -/
def pyIntSpace (c : Char) : Bool :=
  c = ' ' || c = '\t' || c = '\n' || c = '\r' || c = '\x0b' || c = '\x0c'

/-- Python `int(s)`: optional surrounding whitespace, optional sign,
ASCII digit run; `none` where Python raises `ValueError`. -/
def pyIntOfChars (s : List Char) : Option Int :=
  let t := ((s.dropWhile pyIntSpace).reverse.dropWhile pyIntSpace).reverse
  match t with
  | '+' :: rest => (pyDigitsStart rest).map (fun n => (n : Int))
  | '-' :: rest => (pyDigitsStart rest).map (fun n => -(n : Int))
  | rest => (pyDigitsStart rest).map (fun n => (n : Int))

/-- Python `int(s)` on a Lean string. -/
def pyInt (s : String) : Option Int := pyIntOfChars s.data

/-- `score_release` (metadata.py lines 148-171), with the code's
sequential accumulation: status and primary type are lowercased before
comparison, the compilation check is against the exact string
`"Compilation"`. -/
def scoreRelease (r : Release) : Int :=
  let score : Int := 0
  let status := pyLower r.status
  let primaryType := pyLower r.primaryType
  let score := if status = "official" then score + 100 else score
  let score :=
    if primaryType = "album" then score + 50
    else if primaryType = "ep" then score + 40
    else if primaryType = "single" then score + 30
    else score
  if "Compilation" ∈ r.secondaryTypes then score else score + 20

/-- `max(releases, key=score_release)` (metadata.py line 173). -/
def selectBestRelease (releases : List Release) : Option Release :=
  pyMaxBy scoreRelease releases

/-- The release information `_select_best_release` extracts from the
chosen release (metadata.py lines 176-204). -/
structure ReleaseInfo where
  album : String
  releaseId : Option String
  albumArtist : Option String
  year : Option Int
  totalTracks : Option Int
  discNumber : Option Int
  deriving DecidableEq, Repr

/-- Field extraction of `_select_best_release` (metadata.py lines
176-204): the medium loop leaves the last medium's `track-count` as the
total and sets the disc number to the medium count only for multi-disc
releases; the year is `int(date[:4])` when the date has at least four
characters and parses. -/
def extractReleaseInfo (best : Release) : ReleaseInfo :=
  { album := best.title.getD "Unknown Album"
    releaseId := best.id
    albumArtist := best.albumArtistName
    year := if best.date.length ≥ 4 then pyInt (best.date.take 4) else none
    totalTracks :=
      match best.mediumList.getLast? with
      | none => none
      | some m => m.trackCount
    discNumber :=
      if best.mediumList.length > 1 then some (best.mediumList.length : Int) else none }

/-- `_select_best_release` (metadata.py lines 139-204): sentinel info on
an empty release list, otherwise extraction from the score-maximal
release. -/
def selectBestReleaseInfo (releases : List Release) : ReleaseInfo :=
  match selectBestRelease releases with
  | none =>
    { album := "Unknown Album", releaseId := none, albumArtist := none,
      year := none, totalTracks := none, discNumber := none }
  | some best => extractReleaseInfo best

/-- C2's scoring formula read literally from the spec's words, for
comparison with the code's `score_release`: exact string comparison
against `"official"`, `"album"`, `"EP"`, `"single"`, and `"compilation"`
with no case normalization. -/
def specScoreReleaseC2 (r : Release) : Int :=
  (if r.status = "official" then 100 else 0) +
  (if r.primaryType = "album" then 50
   else if r.primaryType = "EP" then 40
   else if r.primaryType = "single" then 30
   else 0) +
  (if "compilation" ∈ r.secondaryTypes then 0 else 20)

/-- Counterexample to C2 as stated: a release whose status is spelled
`"Official"` (the canonical MusicBrainz capitalization) is scored 120 by
the code, which lowercases the status before comparing, while the
claim's literal formula awards it only the 20 non-compilation points. -/
theorem C2_counterexample :
    scoreRelease ⟨"Official", "", [], none, none, none, "", []⟩ = 120 ∧
    specScoreReleaseC2 ⟨"Official", "", [], none, none, none, "", []⟩ = 20 ∧
    (120 : Int) ≠ 20 := by
  refine ⟨?_, ?_, by decide⟩
  · decide
  · decide

/-- C2 (amended): the Resolver scores each release as +100 if its
lowercased status is "official", plus +50/+40/+30 if its lowercased
primary type is "album"/"ep"/"single", plus +20 if its secondary types
do not contain the exact string "Compilation", and selects the release
of maximum total score, the earliest of the list among equal maxima. -/
theorem C2_selectBestRelease_amended (releases : List Release) (h : releases ≠ []) :
    (∀ r ∈ releases, scoreRelease r =
      (if pyLower r.status = "official" then 100 else 0) +
      (if pyLower r.primaryType = "album" then 50
       else if pyLower r.primaryType = "ep" then 40
       else if pyLower r.primaryType = "single" then 30 else 0) +
      (if "Compilation" ∈ r.secondaryTypes then 0 else 20)) ∧
    ∃ best, selectBestRelease releases = some best ∧
      (∀ r ∈ releases, scoreRelease r ≤ scoreRelease best) ∧
      ∃ l₁ l₂, releases = l₁ ++ best :: l₂ ∧
        ∀ r ∈ l₁, scoreRelease r < scoreRelease best := by
  constructor
  · intro r _
    simp only [scoreRelease]
    split_ifs <;> omega
  · match releases with
    | [] => exact absurd rfl h
    | x :: xs =>
      refine ⟨pyMaxGo scoreRelease x xs, rfl, ?_, ?_⟩
      · intro r hr
        obtain ⟨h1, h2, _⟩ := pyMaxGo_spec scoreRelease xs x
        rcases List.mem_cons.mp hr with hr | hr
        · exact hr ▸ h2
        · exact h1 r hr
      · obtain ⟨_, _, h3⟩ := pyMaxGo_spec scoreRelease xs x
        rcases h3 with h3 | ⟨l₁, l₂, hsplit, hlt, hall⟩
        · refine ⟨[], xs, ?_, ?_⟩
          · rw [h3]; rfl
          · intro r hr; exact absurd hr (List.not_mem_nil r)
        · refine ⟨x :: l₁, l₂, ?_, ?_⟩
          · rw [List.cons_append, ← hsplit]
          · intro r hr
            rcases List.mem_cons.mp hr with hr | hr
            · exact hr ▸ hlt
            · exact hall r hr

/-- Witness for the amended C2 at a concrete two-release list with a tie:
the earlier official album release wins. -/
theorem C2_selectBestRelease_amended_witness :
    ([⟨"Official", "Album", [], some "A", some "ra", none, "1999", []⟩,
      ⟨"official", "album", [], some "B", some "rb", none, "2001", []⟩] :
        List Release) ≠ [] ∧
    ∃ best, selectBestRelease
        [⟨"Official", "Album", [], some "A", some "ra", none, "1999", []⟩,
         ⟨"official", "album", [], some "B", some "rb", none, "2001", []⟩] = some best ∧
      best.title = some "A" :=
  ⟨List.cons_ne_nil _ _, by
    obtain ⟨-, best, hsel, -, l₁, l₂, hsplit, hstrict⟩ :=
      C2_selectBestRelease_amended
        [⟨"Official", "Album", [], some "A", some "ra", none, "1999", []⟩,
         ⟨"official", "album", [], some "B", some "rb", none, "2001", []⟩]
        (List.cons_ne_nil _ _)
    refine ⟨best, hsel, ?_⟩
    have hb : best = ⟨"Official", "Album", [], some "A", some "ra", none, "1999", []⟩ := by
      have := hsel
      simp only [selectBestRelease, pyMaxBy, Option.some_inj] at this
      rw [← this]
      decide
    rw [hb]⟩

/-! ## Organizer: filename sanitization (src/organizer.py lines 22-50)

Strings are processed as their character lists.  Python's `\s` regex
class and `str.strip()` whitespace are modelled by `pySpace`; the
byte-length check uses the UTF-8 size of each scalar, as Python's
`len(s.encode("utf-8"))` does. -/

/-- The characters matched by `INVALID_CHARS_PATTERN` (organizer.py
line 18): `<>:"/\|?*`. -/
def invalidChar (c : Char) : Bool :=
  c = '<' || c = '>' || c = ':' || c = '"' || c = '/' || c = '\\' ||
  c = '|' || c = '?' || c = '*'

/-- Whitespace for Python's `\s` on `str` and for `str.strip()`. -/
def pySpace (c : Char) : Bool :=
  c = ' ' || c = '\t' || c = '\n' || c = '\x0b' || c = '\x0c' || c = '\r' ||
  c = '\x1c' || c = '\x1d' || c = '\x1e' || c = '\x1f' || c = '\x85' ||
  c = '\xa0' || c = ' ' ||
  (0x2000 ≤ c.toNat && c.toNat ≤ 0x200a) ||
  c = ' ' || c = ' ' || c = ' ' || c = ' ' || c = '　'

/-- The strip set of `sanitized.strip(" .")` (organizer.py line 39). -/
def dotSpace (c : Char) : Bool := c = ' ' || c = '.'

/-- Drop the trailing run of characters satisfying `p` (the right half
of Python `str.strip`). -/
def dropEndWhile (p : Char → Bool) : List Char → List Char
  | [] => []
  | c :: rest =>
    if dropEndWhile p rest = [] && p c then [] else c :: dropEndWhile p rest

/-- Python `s.strip(chars)` / `s.strip()`: drop the leading and trailing
runs of characters satisfying `p`. -/
def pyStrip (p : Char → Bool) (l : List Char) : List Char :=
  dropEndWhile p (l.dropWhile p)

/-- One pass of `re.sub(r"\s+", " ", s)` (organizer.py line 42): each
maximal whitespace run becomes a single space.  The flag records whether
the previous character was part of a run. -/
def collapseWS : Bool → List Char → List Char
  | _, [] => []
  | prevSpace, c :: rest =>
    if pySpace c then
      if prevSpace then collapseWS true rest
      else ' ' :: collapseWS true rest
    else c :: collapseWS false rest

/-- UTF-8 byte length of a character list, Python's
`len(s.encode("utf-8"))`. -/
def utf8Len (l : List Char) : Nat := (l.map Char.utf8Size).sum

/-- The truncation loop of organizer.py lines 46-47 (`while byte length
exceeds 200, drop the final character`), run on explicit fuel; one
character disappears per iteration, so fuel `l.length` always suffices. -/
def truncGo : Nat → List Char → List Char
  | 0, l => l
  | fuel + 1, l => if utf8Len l > 200 then truncGo fuel l.dropLast else l

/-- `sanitize_filename` (organizer.py lines 22-50) on a character list:
empty input falls back to "Unknown"; otherwise remove invalid
characters, strip spaces and periods at both ends, collapse whitespace
runs, truncate to at most 200 UTF-8 bytes (stripping whitespace again
only when truncation happened), and fall back to "Unknown" when the
result is empty. -/
def sanitizeChars (name : List Char) : List Char :=
  if name = [] then "Unknown".data
  else
    let s1 := name.filter (fun c => !invalidChar c)
    let s2 := pyStrip dotSpace s1
    let s3 := collapseWS false s2
    let s4 := if utf8Len s3 > 200 then pyStrip pySpace (truncGo s3.length s3) else s3
    if s4 = [] then "Unknown".data else s4

/-- `sanitize_filename` on Lean strings. -/
def sanitizeFilename (s : String) : String := ⟨sanitizeChars s.data⟩

/-- Counterexample to C3 as stated: `sanitize_filename` is not
idempotent.  On `"a\t"` the end-strip (spaces and periods only) runs
before whitespace collapsing, so the tab survives the strip and then
collapses into a trailing space, which a second application removes. -/
theorem C3_counterexample :
    sanitizeFilename "a\t" = "a " ∧ sanitizeFilename "a " = "a" ∧
    sanitizeFilename (sanitizeFilename "a\t") ≠ sanitizeFilename "a\t" := by
  refine ⟨?_, ?_, ?_⟩ <;> decide

/-- Whitespace characters of a sanitized intermediate are plain spaces. -/
def SpacesNormal (l : List Char) : Prop := ∀ c ∈ l, pySpace c = true → c = ' '

/-- No two adjacent whitespace characters. -/
def NoAdjSp : List Char → Prop
  | a :: b :: rest => ¬(pySpace a = true ∧ pySpace b = true) ∧ NoAdjSp (b :: rest)
  | _ => True

theorem noAdjSp_nil : NoAdjSp [] := trivial

theorem noAdjSp_single (c : Char) : NoAdjSp [c] := trivial

theorem noAdjSp_tail {c : Char} {l : List Char} (h : NoAdjSp (c :: l)) : NoAdjSp l := by
  cases l with
  | nil => trivial
  | cons d rest => exact h.2

theorem noAdjSp_cons_of {c : Char} {r : List Char}
    (h1 : ∀ d, r.head? = some d → ¬(pySpace c = true ∧ pySpace d = true))
    (h2 : NoAdjSp r) : NoAdjSp (c :: r) := by
  cases r with
  | nil => trivial
  | cons d rest => exact ⟨h1 d rfl, h2⟩

theorem noAdjSp_dropWhile (p : Char → Bool) (l : List Char) (h : NoAdjSp l) :
    NoAdjSp (l.dropWhile p) := by
  induction l with
  | nil => trivial
  | cons c rest ih =>
    rw [List.dropWhile_cons]
    by_cases hc : p c = true
    · rw [if_pos hc]; exact ih (noAdjSp_tail h)
    · rw [if_neg hc]; exact h

theorem dropEndWhile_nil_or_cons (p : Char → Bool) (c : Char) (rest : List Char) :
    dropEndWhile p (c :: rest) = [] ∨
      dropEndWhile p (c :: rest) = c :: dropEndWhile p rest := by
  rw [dropEndWhile]
  by_cases h : (dropEndWhile p rest = [] && p c) = true
  · rw [if_pos h]; exact Or.inl rfl
  · rw [if_neg h]; exact Or.inr rfl

theorem dropEndWhile_sublist (p : Char → Bool) (l : List Char) :
    List.Sublist (dropEndWhile p l) l := by
  induction l with
  | nil => exact List.Sublist.refl []
  | cons c rest ih =>
    rcases dropEndWhile_nil_or_cons p c rest with h | h
    · rw [h]; exact List.nil_sublist _
    · rw [h]; exact List.Sublist.cons₂ c ih

theorem noAdjSp_dropEndWhile (p : Char → Bool) (l : List Char) (h : NoAdjSp l) :
    NoAdjSp (dropEndWhile p l) := by
  induction l with
  | nil => trivial
  | cons c rest ih =>
    rcases dropEndWhile_nil_or_cons p c rest with hc | hc
    · rw [hc]; trivial
    · rw [hc]
      refine noAdjSp_cons_of ?_ (ih (noAdjSp_tail h))
      intro d hd
      cases rest with
      | nil => simp [dropEndWhile] at hd
      | cons e rest2 =>
        rcases dropEndWhile_nil_or_cons p e rest2 with he | he
        · rw [he] at hd; exact absurd hd (Option.noConfusion)
        · rw [he] at hd
          have heq : e = d := by simpa using hd
          rw [← heq]
          exact h.1

theorem noAdjSp_dropLast (l : List Char) (h : NoAdjSp l) : NoAdjSp l.dropLast := by
  induction l with
  | nil => trivial
  | cons a rest ih =>
    cases rest with
    | nil => trivial
    | cons b rest2 =>
      have hstep : (a :: b :: rest2).dropLast = a :: (b :: rest2).dropLast := rfl
      rw [hstep]
      refine noAdjSp_cons_of ?_ (ih h.2)
      intro d hd
      cases rest2 with
      | nil => exact absurd hd (Option.noConfusion)
      | cons e rest3 =>
        have heq : b = d := by simpa using hd
        rw [← heq]
        exact h.1

theorem noAdjSp_truncGo (fuel : Nat) (l : List Char) (h : NoAdjSp l) :
    NoAdjSp (truncGo fuel l) := by
  induction fuel generalizing l with
  | zero => exact h
  | succ n ih =>
    rw [truncGo]
    by_cases hc : utf8Len l > 200
    · rw [if_pos hc]; exact ih _ (noAdjSp_dropLast l h)
    · rw [if_neg hc]; exact h

theorem truncGo_sublist (fuel : Nat) (l : List Char) :
    List.Sublist (truncGo fuel l) l := by
  induction fuel generalizing l with
  | zero => exact List.Sublist.refl l
  | succ n ih =>
    rw [truncGo]
    by_cases hc : utf8Len l > 200
    · rw [if_pos hc]
      exact List.Sublist.trans (ih l.dropLast) (List.dropLast_sublist l)
    · rw [if_neg hc]

theorem utf8Len_cons (c : Char) (l : List Char) :
    utf8Len (c :: l) = c.utf8Size + utf8Len l := by
  simp [utf8Len]

theorem utf8Len_le_of_sublist {l₁ l₂ : List Char} (h : List.Sublist l₁ l₂) :
    utf8Len l₁ ≤ utf8Len l₂ := by
  induction h with
  | slnil => exact le_refl 0
  | cons a _ ih => rw [utf8Len_cons]; omega
  | cons₂ a _ ih => rw [utf8Len_cons, utf8Len_cons]; omega

theorem collapseWS_mem {b : Bool} {l : List Char} {c : Char}
    (h : c ∈ collapseWS b l) : c = ' ' ∨ (c ∈ l ∧ pySpace c = false) := by
  induction l generalizing b with
  | nil => simp [collapseWS] at h
  | cons d rest ih =>
    simp only [collapseWS] at h
    by_cases hd : pySpace d = true
    · rw [if_pos hd] at h
      have hsub : c ∈ collapseWS true rest ∨ c = ' ' := by
        cases b with
        | true => simp only [if_pos rfl] at h; exact Or.inl h
        | false =>
          simp only [Bool.false_eq_true, if_false] at h
          rcases List.mem_cons.mp h with h1 | h1
          · exact Or.inr h1
          · exact Or.inl h1
      rcases hsub with h1 | h1
      · rcases ih h1 with h2 | ⟨h2, h3⟩
        · exact Or.inl h2
        · exact Or.inr ⟨List.mem_cons_of_mem d h2, h3⟩
      · exact Or.inl h1
    · rw [if_neg hd] at h
      rcases List.mem_cons.mp h with h1 | h1
      · refine Or.inr ⟨?_, ?_⟩
        · rw [h1]; exact List.mem_cons_self d rest
        · rw [h1]; revert hd; cases pySpace d <;> simp
      · rcases ih h1 with h2 | ⟨h2, h3⟩
        · exact Or.inl h2
        · exact Or.inr ⟨List.mem_cons_of_mem d h2, h3⟩

theorem collapseWS_true_head (l : List Char) (c : Char)
    (h : (collapseWS true l).head? = some c) : pySpace c = false := by
  induction l with
  | nil => simp [collapseWS] at h
  | cons d rest ih =>
    simp only [collapseWS] at h
    by_cases hd : pySpace d = true
    · rw [if_pos hd] at h
      exact ih h
    · rw [if_neg hd] at h
      have : d = c := by simpa using h
      rw [← this]
      revert hd; cases pySpace d <;> simp

theorem collapseWS_noAdj (b : Bool) (l : List Char) : NoAdjSp (collapseWS b l) := by
  induction l generalizing b with
  | nil => trivial
  | cons d rest ih =>
    by_cases hd : pySpace d = true
    · cases b with
      | true =>
        have : collapseWS true (d :: rest) = collapseWS true rest := by
          simp [collapseWS, hd]
        rw [this]; exact ih true
      | false =>
        have : collapseWS false (d :: rest) = ' ' :: collapseWS true rest := by
          simp [collapseWS, hd]
        rw [this]
        refine noAdjSp_cons_of ?_ (ih true)
        intro e he hcon
        have hef := collapseWS_true_head rest e he
        rw [hef] at hcon
        exact absurd hcon.2 (by simp)
    · have : collapseWS b (d :: rest) = d :: collapseWS false rest := by
        simp [collapseWS, hd]
      rw [this]
      refine noAdjSp_cons_of ?_ (ih false)
      intro e he hcon
      exact absurd hcon.1 hd

theorem collapseWS_fix (l : List Char) (hn : SpacesNormal l) (ha : NoAdjSp l) :
    collapseWS false l = l ∧
      ((∀ c, l.head? = some c → pySpace c = false) → collapseWS true l = l) := by
  induction l with
  | nil => exact ⟨rfl, fun _ => rfl⟩
  | cons d rest ih =>
    have hn2 : SpacesNormal rest := fun c hc => hn c (List.mem_cons_of_mem d hc)
    obtain ⟨ihf, iht⟩ := ih hn2 (noAdjSp_tail ha)
    constructor
    · by_cases hd : pySpace d = true
      · have hde : d = ' ' := hn d (List.mem_cons_self d rest) hd
        have hrest : ∀ c, rest.head? = some c → pySpace c = false := by
          intro c hc
          cases rest with
          | nil => exact absurd hc (Option.noConfusion)
          | cons e rest2 =>
            have hec : e = c := by simpa using hc
            rw [← hec]
            by_contra hcon
            exact ha.1 ⟨hd, by revert hcon; cases pySpace e <;> simp⟩
        have hout : collapseWS false (d :: rest) = ' ' :: collapseWS true rest := by
          simp [collapseWS, hd]
        rw [hout, iht hrest, hde]
      · have hout : collapseWS false (d :: rest) = d :: collapseWS false rest := by
          simp [collapseWS, hd]
        rw [hout, ihf]
    · intro hhead
      have hd : pySpace d = false := hhead d rfl
      have hout : collapseWS true (d :: rest) = d :: collapseWS false rest := by
        simp [collapseWS, hd]
      rw [hout, ihf]

theorem truncGo_le (fuel : Nat) (l : List Char) (hf : l.length ≤ fuel) :
    utf8Len (truncGo fuel l) ≤ 200 := by
  induction fuel generalizing l with
  | zero =>
    have : l = [] := List.eq_nil_of_length_eq_zero (Nat.le_zero.mp hf)
    rw [this]
    simp [truncGo, utf8Len]
  | succ n ih =>
    rw [truncGo]
    by_cases hc : utf8Len l > 200
    · rw [if_pos hc]
      refine ih l.dropLast ?_
      rw [List.length_dropLast]
      omega
    · rw [if_neg hc]; omega

theorem pyStrip_sublist (p : Char → Bool) (l : List Char) :
    List.Sublist (pyStrip p l) l :=
  List.Sublist.trans (dropEndWhile_sublist p (l.dropWhile p)) (List.dropWhile_sublist p)

theorem dropWhile_head_not (p : Char → Bool) (l : List Char) (c : Char)
    (h : (l.dropWhile p).head? = some c) : p c = false := by
  induction l with
  | nil => simp at h
  | cons d rest ih =>
    rw [List.dropWhile_cons] at h
    by_cases hd : p d = true
    · rw [if_pos hd] at h; exact ih h
    · rw [if_neg hd] at h
      have hdc : d = c := by simpa using h
      rw [← hdc]
      revert hd; cases p d <;> simp

theorem dropWhile_eq_self_of_head (p : Char → Bool) (l : List Char)
    (h : ∀ c, l.head? = some c → p c = false) : l.dropWhile p = l := by
  cases l with
  | nil => rfl
  | cons d rest =>
    rw [List.dropWhile_cons, if_neg (by simp [h d rfl])]

theorem dropEndWhile_idem (p : Char → Bool) (l : List Char) :
    dropEndWhile p (dropEndWhile p l) = dropEndWhile p l := by
  induction l with
  | nil => rfl
  | cons c rest ih =>
    rcases dropEndWhile_nil_or_cons p c rest with h | h
    · rw [h]; rfl
    · have hcond : (dropEndWhile p rest = [] && p c) = false := by
        by_contra hcon
        have hpos : (dropEndWhile p rest = [] && p c) = true := by
          revert hcon; cases (dropEndWhile p rest = [] && p c) <;> simp
        rw [dropEndWhile, if_pos hpos] at h
        exact absurd h.symm (List.cons_ne_nil c _)
      rw [h, dropEndWhile, ih, hcond]
      simp

theorem pyStrip_idem (p : Char → Bool) (l : List Char) :
    pyStrip p (pyStrip p l) = pyStrip p l := by
  show pyStrip p (dropEndWhile p (l.dropWhile p)) = dropEndWhile p (l.dropWhile p)
  rw [pyStrip]
  have h1 : (dropEndWhile p (l.dropWhile p)).dropWhile p
      = dropEndWhile p (l.dropWhile p) := by
    apply dropWhile_eq_self_of_head
    intro c hc
    cases hm : l.dropWhile p with
    | nil =>
      rw [hm] at hc
      exact absurd hc (by simp [dropEndWhile])
    | cons d rest =>
      rw [hm] at hc
      rcases dropEndWhile_nil_or_cons p d rest with h | h
      · rw [h] at hc; exact absurd hc (Option.noConfusion)
      · rw [h] at hc
        have hdc : d = c := by simpa using hc
        have hd := dropWhile_head_not p l d (by rw [hm]; rfl)
        rw [← hdc]; exact hd
  rw [h1, dropEndWhile_idem]

/-- Invariants of every `sanitize_filename` output: no illegal filename
characters, all whitespace normalized to single non-adjacent spaces, at
most 200 UTF-8 bytes, non-empty. -/
def CleanName (l : List Char) : Prop :=
  (∀ c ∈ l, invalidChar c = false) ∧ SpacesNormal l ∧ NoAdjSp l ∧
    utf8Len l ≤ 200 ∧ l ≠ []

theorem cleanName_unknown : CleanName "Unknown".data := by
  refine ⟨by decide, by unfold SpacesNormal; decide, ?_, by decide, by decide⟩
  show NoAdjSp ['U', 'n', 'k', 'n', 'o', 'w', 'n']
  simp only [NoAdjSp]
  refine ⟨by decide, by decide, by decide, by decide, by decide, by decide, trivial⟩

theorem sanitizeChars_clean (name : List Char) : CleanName (sanitizeChars name) := by
  by_cases h0 : name = []
  · rw [sanitizeChars, if_pos h0]; exact cleanName_unknown
  · rw [sanitizeChars, if_neg h0]
    dsimp only
    set s1 := name.filter (fun c => !invalidChar c) with hs1
    set s2 := pyStrip dotSpace s1 with hs2
    set s3 := collapseWS false s2 with hs3
    have hinv3 : ∀ c ∈ s3, invalidChar c = false := by
      intro c hc
      rcases collapseWS_mem hc with h | ⟨h, _⟩
      · rw [h]; decide
      · have hcs1 : c ∈ s1 := (pyStrip_sublist dotSpace s1).mem h
        have hf := List.mem_filter.mp hcs1
        simpa using hf.2
    have hnorm3 : SpacesNormal s3 := by
      intro c hc hs
      rcases collapseWS_mem hc with h | ⟨_, h2⟩
      · exact h
      · rw [hs] at h2; exact absurd h2 (by simp)
    have hadj3 : NoAdjSp s3 := collapseWS_noAdj false s2
    by_cases hlen : utf8Len s3 > 200
    · rw [if_pos hlen]
      set s4 := pyStrip pySpace (truncGo s3.length s3) with hs4
      have hsub4 : List.Sublist s4 s3 :=
        List.Sublist.trans (pyStrip_sublist pySpace _) (truncGo_sublist _ _)
      have hlen4 : utf8Len s4 ≤ 200 := by
        rw [hs4]
        have h1 : utf8Len (truncGo s3.length s3) ≤ 200 := truncGo_le _ _ (le_refl _)
        have h2 := utf8Len_le_of_sublist (pyStrip_sublist pySpace (truncGo s3.length s3))
        omega
      have hadj4 : NoAdjSp s4 :=
        noAdjSp_dropEndWhile _ _ (noAdjSp_dropWhile _ _ (noAdjSp_truncGo _ _ hadj3))
      by_cases hemp : s4 = []
      · rw [if_pos hemp]; exact cleanName_unknown
      · rw [if_neg hemp]
        exact ⟨fun c hc => hinv3 c (hsub4.mem hc),
               fun c hc hs => hnorm3 c (hsub4.mem hc) hs, hadj4, hlen4, hemp⟩
    · rw [if_neg hlen]
      by_cases hemp : s3 = []
      · rw [if_pos hemp]; exact cleanName_unknown
      · rw [if_neg hemp]
        exact ⟨hinv3, hnorm3, hadj3, by omega, hemp⟩

theorem sanitizeChars_of_clean (l : List Char) (h : CleanName l) :
    sanitizeChars l =
      (if pyStrip dotSpace l = [] then "Unknown".data else pyStrip dotSpace l) := by
  obtain ⟨hinv, hn, ha, hlen, hne⟩ := h
  rw [sanitizeChars, if_neg hne]
  dsimp only
  have h1 : l.filter (fun c => !invalidChar c) = l := by
    rw [List.filter_eq_self]
    intro c hc
    simp [hinv c hc]
  rw [h1]
  have hn2 : SpacesNormal (pyStrip dotSpace l) :=
    fun c hc hs => hn c ((pyStrip_sublist dotSpace l).mem hc) hs
  have ha2 : NoAdjSp (pyStrip dotSpace l) :=
    noAdjSp_dropEndWhile _ _ (noAdjSp_dropWhile _ _ ha)
  rw [(collapseWS_fix (pyStrip dotSpace l) hn2 ha2).1]
  have hlen2 : ¬ utf8Len (pyStrip dotSpace l) > 200 := by
    have := utf8Len_le_of_sublist (pyStrip_sublist dotSpace l)
    omega
  rw [if_neg hlen2]

theorem sanitizeChars_stable (name : List Char) :
    sanitizeChars (sanitizeChars (sanitizeChars name)) =
      sanitizeChars (sanitizeChars name) := by
  have hy : CleanName (sanitizeChars name) := sanitizeChars_clean name
  rw [sanitizeChars_of_clean (sanitizeChars name) hy]
  by_cases hz : pyStrip dotSpace (sanitizeChars name) = []
  · rw [if_pos hz]
    decide
  · rw [if_neg hz]
    obtain ⟨hinv, hn, ha, hlen, _⟩ := hy
    have hclean2 : CleanName (pyStrip dotSpace (sanitizeChars name)) := by
      refine ⟨fun c hc => hinv c ((pyStrip_sublist _ _).mem hc),
        fun c hc hs => hn c ((pyStrip_sublist _ _).mem hc) hs,
        noAdjSp_dropEndWhile _ _ (noAdjSp_dropWhile _ _ ha), ?_, hz⟩
      have := utf8Len_le_of_sublist (pyStrip_sublist dotSpace (sanitizeChars name))
      omega
    rw [sanitizeChars_of_clean _ hclean2, pyStrip_idem, if_neg hz]

/-- C3 (amended): `sanitize_filename` is not idempotent on raw input,
but it is idempotent from the second application on — the output of a
double application is a fixed point. -/
theorem C3_sanitizeFilename_amended (s : String) :
    sanitizeFilename (sanitizeFilename (sanitizeFilename s)) =
      sanitizeFilename (sanitizeFilename s) := by
  show (⟨sanitizeChars (sanitizeChars (sanitizeChars s.data))⟩ : String) =
    ⟨sanitizeChars (sanitizeChars s.data)⟩
  rw [sanitizeChars_stable]

theorem utf8ByteSize_go_eq (l : List Char) :
    String.utf8ByteSize.go l = utf8Len l := by
  induction l with
  | nil => rfl
  | cons c rest ih =>
    rw [utf8Len_cons]
    show String.utf8ByteSize.go rest + c.utf8Size = _
    omega

/-- C4: for every input string, `sanitize_filename` returns a string
with none of the nine illegal filename characters, at most 200 UTF-8
bytes, and never empty. -/
theorem C4_sanitizeFilename_output (s : String) :
    (∀ c ∈ (sanitizeFilename s).data, invalidChar c = false) ∧
    (sanitizeFilename s).utf8ByteSize ≤ 200 ∧
    sanitizeFilename s ≠ "" := by
  obtain ⟨hinv, _, _, hlen, hne⟩ := sanitizeChars_clean s.data
  refine ⟨hinv, ?_, ?_⟩
  · show String.utf8ByteSize.go (sanitizeChars s.data) ≤ 200
    rw [utf8ByteSize_go_eq]
    exact hlen
  · intro hcon
    exact hne (congrArg String.data hcon)

/-! ## Tag Writer (src/tagger.py)

The mutagen tag store of one MP3 file is modelled as a record of
optional frame texts.  Python truthiness on optional strings/ints is
`getD "" ≠ ""` / `getD 0 ≠ 0`; `str(n)` is `toString`. -/

/-- `TrackMetadata` (metadata.py lines 30-59). -/
structure TrackMetadata where
  title : String
  artist : String
  album : String
  album_artist : Option String := none
  track_number : Option Int := none
  total_tracks : Option Int := none
  disc_number : Option Int := none
  year : Option Int := none
  genre : Option String := none
  musicbrainz_recording_id : Option String := none
  musicbrainz_release_id : Option String := none
  deriving DecidableEq, Repr

/-- The ID3 frames of one file that tagger.py reads and writes.
`tyer`/`tdrc` are the ID3v2.3 and v2.4 year frames; the two TXXX
user-defined frames carry the MusicBrainz identifiers. -/
structure FileTags where
  tit2 : Option String := none
  tpe1 : Option String := none
  tpe2 : Option String := none
  talb : Option String := none
  trck : Option String := none
  tpos : Option String := none
  tyer : Option String := none
  tdrc : Option String := none
  tcon : Option String := none
  txxxRecordingId : Option String := none
  txxxReleaseId : Option String := none
  deriving DecidableEq, Repr

/-- A year read back from the tag store: `int(str(value)[:4])` when it
parses, the raw string otherwise (tagger.py lines 67-71). -/
inductive YearVal where
  | num (n : Int)
  | str (s : String)
  deriving DecidableEq, Repr

def readYearVal (s : String) : YearVal :=
  match pyInt (s.take 4) with
  | some n => YearVal.num n
  | none => YearVal.str s

/-- The mapping `read_current_tags` returns (tagger.py lines 31-75). -/
structure CurrentTags where
  title : Option String
  artist : Option String
  album_artist : Option String
  album : Option String
  track : Option String
  disc : Option String
  year : Option YearVal
  genre : Option String
  deriving DecidableEq, Repr

/-- `read_current_tags` (tagger.py lines 31-75): the year key is filled
from TYER and then overwritten by TDRC when both are present (the
mapping dict lists TYER before TDRC). -/
def readCurrentTags (f : FileTags) : CurrentTags :=
  { title := f.tit2
    artist := f.tpe1
    album_artist := f.tpe2
    album := f.talb
    track := f.trck
    disc := f.tpos
    year :=
      match f.tdrc, f.tyer with
      | some v, _ => some (readYearVal v)
      | none, some v => some (readYearVal v)
      | none, none => none
    genre := f.tcon }

/-- The track string of tagger.py lines 135-138: `"N/total"` when a
truthy total is present, else `"N"`. -/
def trackStrOf (md : TrackMetadata) : String :=
  if md.total_tracks.getD 0 ≠ 0 then
    toString (md.track_number.getD 0) ++ "/" ++ toString (md.total_tracks.getD 0)
  else toString (md.track_number.getD 0)

/-- A diffed string field enters the change set iff the new value is
truthy and differs from the stored value (default `""`). -/
def strFieldFlag (v : String) (old : Option String) : Bool :=
  decide (v ≠ "" ∧ old.getD "" ≠ v)

/-- Which fields `update_tags` puts into its change dict. -/
structure TagChanges where
  title : Bool
  artist : Bool
  album_artist : Bool
  album : Bool
  track : Bool
  disc : Bool
  year : Bool
  genre : Bool
  deriving DecidableEq, Repr

def TagChanges.isEmpty (c : TagChanges) : Bool :=
  !(c.title || c.artist || c.album_artist || c.album ||
    c.track || c.disc || c.year || c.genre)

/-- The change flags of `update_tags` (tagger.py lines 106-164): each
field is diffed against the read-back mapping; the year is compared as
an integer, the track as its rendered string. -/
def tagChangesOf (f : FileTags) (md : TrackMetadata) : TagChanges :=
  let old := readCurrentTags f
  { title := strFieldFlag md.title old.title
    artist := strFieldFlag md.artist old.artist
    album_artist := strFieldFlag (md.album_artist.getD "") old.album_artist
    album := strFieldFlag md.album old.album
    track := decide (md.track_number.getD 0 ≠ 0 ∧ old.track.getD "" ≠ trackStrOf md)
    disc := decide (md.disc_number.getD 0 ≠ 0 ∧
      old.disc.getD "" ≠ toString (md.disc_number.getD 0))
    year := decide (md.year.getD 0 ≠ 0 ∧ old.year ≠ some (YearVal.num (md.year.getD 0)))
    genre := strFieldFlag (md.genre.getD "") old.genre }

/-- The frame set persisted by `audio.save()` (tagger.py lines 106-184):
changed fields get their new text, the MusicBrainz TXXX frames are set
unconditionally when the identifiers are truthy, all other frames keep
their stored text. -/
def savedTags (f : FileTags) (md : TrackMetadata) (c : TagChanges) : FileTags :=
  { tit2 := if c.title then some md.title else f.tit2
    tpe1 := if c.artist then some md.artist else f.tpe1
    tpe2 := if c.album_artist then some (md.album_artist.getD "") else f.tpe2
    talb := if c.album then some md.album else f.talb
    trck := if c.track then some (trackStrOf md) else f.trck
    tpos := if c.disc then some (toString (md.disc_number.getD 0)) else f.tpos
    tyer := f.tyer
    tdrc := if c.year then some (toString (md.year.getD 0)) else f.tdrc
    tcon := if c.genre then some (md.genre.getD "") else f.tcon
    txxxRecordingId :=
      if md.musicbrainz_recording_id.getD "" ≠ "" then md.musicbrainz_recording_id
      else f.txxxRecordingId
    txxxReleaseId :=
      if md.musicbrainz_release_id.getD "" ≠ "" then md.musicbrainz_release_id
      else f.txxxReleaseId }

/-- `update_tags` (tagger.py lines 78-186): computes the change dict and
saves the updated frame set only when the change dict is non-empty and
dry_run is off (`if changes and not dry_run`, line 182). -/
def updateTags (f : FileTags) (md : TrackMetadata) (dry : Bool) :
    TagChanges × FileTags :=
  let c := tagChangesOf f md
  (c, if !c.isEmpty && !dry then savedTags f md c else f)

theorem diffFlag_idem (P : Prop) [Decidable P] (s : String) (o : Option String) :
    decide (P ∧ (if decide (P ∧ o.getD "" ≠ s) then some s else o).getD "" ≠ s)
      = false := by
  by_cases hP : P
  · by_cases ho : o.getD "" ≠ s
    · simp [hP, ho]
    · simp [hP, ho]
  · simp [hP]

/-- Counterexample to C5 as stated: with the five-digit year 12345 the
read-back parses only the first four characters of the stored TDRC
text (`int(str(value)[:4])`), so the year field re-enters the change
set on the second application. -/
theorem C5_counterexample :
    ((updateTags
        (updateTags { : FileTags }
          { title := "", artist := "", album := "", year := some 12345 } false).2
        { title := "", artist := "", album := "", year := some 12345 } false).1).isEmpty
      = false := by decide

/-- C5 (amended): a field enters the change set only when the stored
value differs from the serialized resolved value (year as integer,
track as its rendered string), and — for metadata whose year, when set
and nonzero, renders to at most four characters so that the read-back
parse recovers it — applying the same metadata twice with dry_run false
produces an empty change set on the second application. -/
theorem C5_updateTags_amended (f : FileTags) (md : TrackMetadata)
    (hy : md.year.getD 0 ≠ 0 →
      pyInt ((toString (md.year.getD 0)).take 4) = some (md.year.getD 0)) :
    ((updateTags f md false).1.title = true →
      (readCurrentTags f).title.getD "" ≠ md.title) ∧
    ((updateTags f md false).1.artist = true →
      (readCurrentTags f).artist.getD "" ≠ md.artist) ∧
    ((updateTags f md false).1.album_artist = true →
      (readCurrentTags f).album_artist.getD "" ≠ md.album_artist.getD "") ∧
    ((updateTags f md false).1.album = true →
      (readCurrentTags f).album.getD "" ≠ md.album) ∧
    ((updateTags f md false).1.track = true →
      (readCurrentTags f).track.getD "" ≠ trackStrOf md) ∧
    ((updateTags f md false).1.disc = true →
      (readCurrentTags f).disc.getD "" ≠ toString (md.disc_number.getD 0)) ∧
    ((updateTags f md false).1.year = true →
      (readCurrentTags f).year ≠ some (YearVal.num (md.year.getD 0))) ∧
    ((updateTags f md false).1.genre = true →
      (readCurrentTags f).genre.getD "" ≠ md.genre.getD "") ∧
    ((updateTags (updateTags f md false).2 md false).1).isEmpty = true := by
  refine ⟨fun h => (of_decide_eq_true h).2, fun h => (of_decide_eq_true h).2,
    fun h => (of_decide_eq_true h).2, fun h => (of_decide_eq_true h).2,
    fun h => (of_decide_eq_true h).2, fun h => (of_decide_eq_true h).2,
    fun h => (of_decide_eq_true h).2, fun h => (of_decide_eq_true h).2, ?_⟩
  set c1 := tagChangesOf f md with hc1
  by_cases hE : c1.isEmpty = true
  · have hsnd : (updateTags f md false).2 = f := by
      show (if !c1.isEmpty && !false then savedTags f md c1 else f) = f
      rw [hE]; rfl
    rw [hsnd]
    exact hE
  · have hEf : c1.isEmpty = false := by revert hE; cases c1.isEmpty <;> simp
    have hsnd : (updateTags f md false).2 = savedTags f md c1 := by
      show (if !c1.isEmpty && !false then savedTags f md c1 else f) = _
      rw [hEf]; rfl
    rw [hsnd]
    have ht : (tagChangesOf (savedTags f md c1) md).title = false := by
      show decide (md.title ≠ "" ∧
        (if c1.title then some md.title else f.tit2).getD "" ≠ md.title) = false
      have hcv : c1.title = decide (md.title ≠ "" ∧ f.tit2.getD "" ≠ md.title) := by
        rw [hc1]; rfl
      rw [hcv]
      exact diffFlag_idem _ _ _
    have har : (tagChangesOf (savedTags f md c1) md).artist = false := by
      show decide (md.artist ≠ "" ∧
        (if c1.artist then some md.artist else f.tpe1).getD "" ≠ md.artist) = false
      have hcv : c1.artist = decide (md.artist ≠ "" ∧ f.tpe1.getD "" ≠ md.artist) := by
        rw [hc1]; rfl
      rw [hcv]
      exact diffFlag_idem _ _ _
    have haa : (tagChangesOf (savedTags f md c1) md).album_artist = false := by
      show decide (md.album_artist.getD "" ≠ "" ∧
        (if c1.album_artist then some (md.album_artist.getD "") else f.tpe2).getD ""
          ≠ md.album_artist.getD "") = false
      have hcv : c1.album_artist = decide (md.album_artist.getD "" ≠ "" ∧
          f.tpe2.getD "" ≠ md.album_artist.getD "") := by
        rw [hc1]; rfl
      rw [hcv]
      exact diffFlag_idem _ _ _
    have hal : (tagChangesOf (savedTags f md c1) md).album = false := by
      show decide (md.album ≠ "" ∧
        (if c1.album then some md.album else f.talb).getD "" ≠ md.album) = false
      have hcv : c1.album = decide (md.album ≠ "" ∧ f.talb.getD "" ≠ md.album) := by
        rw [hc1]; rfl
      rw [hcv]
      exact diffFlag_idem _ _ _
    have htr : (tagChangesOf (savedTags f md c1) md).track = false := by
      show decide (md.track_number.getD 0 ≠ 0 ∧
        (if c1.track then some (trackStrOf md) else f.trck).getD ""
          ≠ trackStrOf md) = false
      have hcv : c1.track = decide (md.track_number.getD 0 ≠ 0 ∧
          f.trck.getD "" ≠ trackStrOf md) := by
        rw [hc1]; rfl
      rw [hcv]
      exact diffFlag_idem _ _ _
    have hdc : (tagChangesOf (savedTags f md c1) md).disc = false := by
      show decide (md.disc_number.getD 0 ≠ 0 ∧
        (if c1.disc then some (toString (md.disc_number.getD 0)) else f.tpos).getD ""
          ≠ toString (md.disc_number.getD 0)) = false
      have hcv : c1.disc = decide (md.disc_number.getD 0 ≠ 0 ∧
          f.tpos.getD "" ≠ toString (md.disc_number.getD 0)) := by
        rw [hc1]; rfl
      rw [hcv]
      exact diffFlag_idem _ _ _
    have hgn : (tagChangesOf (savedTags f md c1) md).genre = false := by
      show decide (md.genre.getD "" ≠ "" ∧
        (if c1.genre then some (md.genre.getD "") else f.tcon).getD ""
          ≠ md.genre.getD "") = false
      have hcv : c1.genre = decide (md.genre.getD "" ≠ "" ∧
          f.tcon.getD "" ≠ md.genre.getD "") := by
        rw [hc1]; rfl
      rw [hcv]
      exact diffFlag_idem _ _ _
    have hyr : (tagChangesOf (savedTags f md c1) md).year = false := by
      by_cases hcy : c1.year = true
      · have hy0 : md.year.getD 0 ≠ 0 := by
          have hcv : c1.year = decide (md.year.getD 0 ≠ 0 ∧
              (readCurrentTags f).year ≠ some (YearVal.num (md.year.getD 0))) := by
            rw [hc1]; rfl
          rw [hcv] at hcy
          exact (of_decide_eq_true hcy).1
        have hframe : (savedTags f md c1).tdrc = some (toString (md.year.getD 0)) := by
          show (if c1.year then some (toString (md.year.getD 0)) else f.tdrc) = _
          rw [if_pos hcy]
        have hread : (readCurrentTags (savedTags f md c1)).year
            = some (readYearVal (toString (md.year.getD 0))) := by
          simp [readCurrentTags, hframe]
        have hrt : readYearVal (toString (md.year.getD 0))
            = YearVal.num (md.year.getD 0) := by
          rw [readYearVal, hy hy0]
        show decide (md.year.getD 0 ≠ 0 ∧
          (readCurrentTags (savedTags f md c1)).year
            ≠ some (YearVal.num (md.year.getD 0))) = false
        rw [hread, hrt]
        simp
      · have hcyf : c1.year = false := by revert hcy; cases c1.year <;> simp
        have hframe : (savedTags f md c1).tdrc = f.tdrc := by
          show (if c1.year then some (toString (md.year.getD 0)) else f.tdrc) = _
          rw [hcyf]; rfl
        have hread : (readCurrentTags (savedTags f md c1)).year
            = (readCurrentTags f).year := by
          show (match (savedTags f md c1).tdrc, (savedTags f md c1).tyer with
            | some v, _ => some (readYearVal v)
            | none, some v => some (readYearVal v)
            | none, none => none) = _
          rw [hframe]
          rfl
        show decide (md.year.getD 0 ≠ 0 ∧
          (readCurrentTags (savedTags f md c1)).year
            ≠ some (YearVal.num (md.year.getD 0))) = false
        rw [hread]
        have hcv : c1.year = decide (md.year.getD 0 ≠ 0 ∧
            (readCurrentTags f).year ≠ some (YearVal.num (md.year.getD 0))) := by
          rw [hc1]; rfl
        rw [← hcv]
        exact hcyf
    show (tagChangesOf (savedTags f md c1) md).isEmpty = true
    rw [TagChanges.isEmpty, ht, har, haa, hal, htr, hdc, hyr, hgn]
    rfl

/-- Witness for the amended C5 at a concrete file and metadata. -/
theorem C5_updateTags_amended_witness :
    ((updateTags (updateTags
        { tit2 := some "Old", trck := some "7" }
        { title := "T", artist := "A", album := "B", track_number := some 3,
          total_tracks := some 12, year := some 1999 } false).2
      { title := "T", artist := "A", album := "B", track_number := some 3,
        total_tracks := some 12, year := some 1999 } false).1).isEmpty = true :=
  (C5_updateTags_amended
    { tit2 := some "Old", trck := some "7" }
    { title := "T", artist := "A", album := "B", track_number := some 3,
      total_tracks := some 12, year := some 1999 }
    (by decide)).2.2.2.2.2.2.2.2

/-- Counterexample to C8 as stated: metadata carrying a MusicBrainz
recording id is applied with dry_run false to a file whose diffed fields
all already match; the change set is empty, so `audio.save()` never runs
(tagger.py line 182) and the identifier frame is not persisted. -/
theorem C8_counterexample :
    ((updateTags { tit2 := some "T", tpe1 := some "A", talb := some "B" }
        { title := "T", artist := "A", album := "B",
          musicbrainz_recording_id := some "r-1" } false).1).isEmpty = true ∧
    (updateTags { tit2 := some "T", tpe1 := some "A", talb := some "B" }
        { title := "T", artist := "A", album := "B",
          musicbrainz_recording_id := some "r-1" } false).2.txxxRecordingId = none ∧
    (none : Option String) ≠ some "r-1" := by
  refine ⟨by decide, by decide, by decide⟩

/-- C8 (amended): with dry_run false, the MusicBrainz identifier frames
are persisted regardless of their prior stored values whenever the
diff-based change set is non-empty; when the change set is empty no
write happens at all and the file keeps its prior frames. -/
theorem C8_updateTags_mbids_amended (f : FileTags) (md : TrackMetadata) :
    ((updateTags f md false).1.isEmpty = false →
      (∀ r, md.musicbrainz_recording_id = some r → r ≠ "" →
        (updateTags f md false).2.txxxRecordingId = some r) ∧
      (∀ r, md.musicbrainz_release_id = some r → r ≠ "" →
        (updateTags f md false).2.txxxReleaseId = some r)) ∧
    ((updateTags f md false).1.isEmpty = true → (updateTags f md false).2 = f) := by
  constructor
  · intro hne
    have hne2 : (tagChangesOf f md).isEmpty = false := hne
    have h2 : (updateTags f md false).2 = savedTags f md (tagChangesOf f md) := by
      show (if !(tagChangesOf f md).isEmpty && !false
        then savedTags f md (tagChangesOf f md) else f) = _
      rw [hne2]; rfl
    rw [h2]
    constructor
    · intro r hr hrne
      show (if md.musicbrainz_recording_id.getD "" ≠ ""
        then md.musicbrainz_recording_id else f.txxxRecordingId) = some r
      rw [hr]
      simp [hrne]
    · intro r hr hrne
      show (if md.musicbrainz_release_id.getD "" ≠ ""
        then md.musicbrainz_release_id else f.txxxReleaseId) = some r
      rw [hr]
      simp [hrne]
  · intro he
    have he2 : (tagChangesOf f md).isEmpty = true := he
    show (if !(tagChangesOf f md).isEmpty && !false
      then savedTags f md (tagChangesOf f md) else f) = f
    rw [he2]; rfl

/-- Witness for the amended C8: a non-empty change set persists the
recording id frame. -/
theorem C8_updateTags_mbids_amended_witness :
    (updateTags { : FileTags }
      { title := "T", artist := "A", album := "B",
        musicbrainz_recording_id := some "r-1" } false).2.txxxRecordingId
      = some "r-1" :=
  ((C8_updateTags_mbids_amended { : FileTags }
      { title := "T", artist := "A", album := "B",
        musicbrainz_recording_id := some "r-1" }).1 (by decide)).1 "r-1" rfl (by decide)

/-! ## Resolver: track listing and backfill (src/metadata.py, src/main.py)

`fetch_release_tracks` performs a remote lookup and flattens the
release's medium list; the remote part is an external collaborator, so
the functions below take the release data (or the fetched listing) as
input. -/

/-- One entry of the listing `fetch_release_tracks` builds
(metadata.py lines 220-233). -/
structure TrackEntry where
  recordingId : Option String
  title : Option String
  trackNumber : Int
  discNumber : Int
  deriving DecidableEq, Repr

/-- The flattening loop of `fetch_release_tracks` (metadata.py lines
222-233): each medium contributes its tracks, with the medium's
`position` (default 1) as disc number and `int(track.get("position",
0))` — so 0 when the key is absent — as track number. -/
def buildTracks (mediums : List Medium) : List TrackEntry :=
  mediums.flatMap (fun m =>
    m.trackList.map (fun t =>
      { recordingId := t.recordingId
        title := t.recordingTitle
        trackNumber := t.position.getD 0
        discNumber := m.position.getD 1 }))

/-- `find_track_number` (metadata.py lines 238-261) applied to a fetched
listing: `None` when the listing is missing or empty (`if not tracks`),
otherwise the first entry whose recording id equals the argument, with
the count of entries sharing its disc number as the total. -/
def findTrackNumber (recordingId : String) (tracks : Option (List TrackEntry)) :
    Option (Int × Nat × Int) :=
  match tracks with
  | none => none
  | some ts =>
    if ts = [] then none
    else
      match ts.find? (fun t => decide (t.recordingId = some recordingId)) with
      | none => none
      | some t =>
        some (t.trackNumber,
          (ts.filter (fun u => decide (u.discNumber = t.discNumber))).length,
          t.discNumber)

/-- C6: on a release track listing, if some entry's recording id equals
the given id, `find_track_number` returns the first such entry's track
number, the count of entries sharing that entry's disc number, and that
entry's disc number; if no entry matches it returns `None`. -/
theorem C6_findTrackNumber_correct (rid : String) (ts : List TrackEntry) :
    (∀ l₁ t l₂, ts = l₁ ++ t :: l₂ → t.recordingId = some rid →
      (∀ u ∈ l₁, u.recordingId ≠ some rid) →
      findTrackNumber rid (some ts) =
        some (t.trackNumber,
          (ts.filter (fun u => decide (u.discNumber = t.discNumber))).length,
          t.discNumber)) ∧
    ((∀ u ∈ ts, u.recordingId ≠ some rid) → findTrackNumber rid (some ts) = none) := by
  constructor
  · intro l₁ t l₂ hsplit ht hl₁
    have hne : ts ≠ [] := by
      rw [hsplit]; exact List.append_ne_nil_of_right_ne_nil l₁ (List.cons_ne_nil t l₂)
    have hfind : ts.find? (fun u => decide (u.recordingId = some rid)) = some t := by
      rw [hsplit, List.find?_append]
      have h1 : l₁.find? (fun u => decide (u.recordingId = some rid)) = none := by
        rw [List.find?_eq_none]
        intro u hu
        simp [hl₁ u hu]
      rw [h1, List.find?_cons_of_pos _ (by simp [ht])]
      rfl
    rw [findTrackNumber, if_neg hne, hfind]
  · intro hall
    by_cases hne : ts = []
    · rw [findTrackNumber, if_pos hne]
    · have hfind : ts.find? (fun u => decide (u.recordingId = some rid)) = none := by
        rw [List.find?_eq_none]
        intro u hu
        simp [hall u hu]
      rw [findTrackNumber, if_neg hne, hfind]

/-- Witness for C6 at a concrete three-entry listing whose second entry
matches. -/
theorem C6_findTrackNumber_correct_witness :
    findTrackNumber "r2" (some
      [⟨some "r1", none, 1, 1⟩, ⟨some "r2", none, 2, 1⟩, ⟨some "r2", none, 3, 2⟩]) =
      some (2, ([⟨some "r1", none, 1, 1⟩, ⟨some "r2", none, 2, 1⟩,
        ⟨some "r2", none, 3, 2⟩] : List TrackEntry).filter
          (fun u => decide (u.discNumber = (1 : Int))) |>.length, 1) :=
  (C6_findTrackNumber_correct "r2"
      [⟨some "r1", none, 1, 1⟩, ⟨some "r2", none, 2, 1⟩, ⟨some "r2", none, 3, 2⟩]).1
    [⟨some "r1", none, 1, 1⟩] ⟨some "r2", none, 2, 1⟩ [⟨some "r2", none, 3, 2⟩]
    rfl rfl (by decide)

theorem pyMaxBy_mem {α β : Type} [LinearOrder β] (f : α → β) (xs : List α) (r : α)
    (h : pyMaxBy f xs = some r) : r ∈ xs := by
  match xs, h with
  | x :: rest, h =>
    have heq : pyMaxGo f x rest = r := Option.some_inj.mp h
    rcases pyMaxGo_mem f rest x with hm | hm
    · rw [← heq, hm]; exact List.mem_cons_self x rest
    · rw [← heq]; exact List.mem_cons_of_mem x hm

/-- The recording payload `fetch_metadata_by_recording_id` consumes
(metadata.py lines 82-101): recording title, the display name
`_extract_artist_name` produces for its artist credit, and the
recording's release list. -/
structure RecordingData where
  title : Option String
  artistName : String
  releaseList : List Release
  deriving DecidableEq, Repr

/-- `fetch_metadata_by_recording_id` (metadata.py lines 82-114) on
fetched recording data: best-release info is extracted; the track
number is never set here (comment at metadata.py line 202), genre never
set. -/
def resolveMetadata (recordingId : String) (rec : RecordingData) : TrackMetadata :=
  let info := selectBestReleaseInfo rec.releaseList
  { title := rec.title.getD "Unknown Title"
    artist := rec.artistName
    album := info.album
    album_artist := info.albumArtist
    track_number := none
    total_tracks := info.totalTracks
    disc_number := info.discNumber
    year := info.year
    genre := none
    musicbrainz_recording_id := some recordingId
    musicbrainz_release_id := info.releaseId }

/-- The driver's conditional backfill (main.py lines 140-148):
`if metadata.musicbrainz_release_id and not metadata.track_number`,
then assign the three numbers when `find_track_number` succeeds. -/
def backfillTrackNumber (md : TrackMetadata) (recordingId : String)
    (listing : Option (List TrackEntry)) : TrackMetadata :=
  if md.musicbrainz_release_id.getD "" ≠ "" ∧ md.track_number.getD 0 = 0 then
    match findTrackNumber recordingId listing with
    | some (tn, tot, dn) =>
      { md with
        track_number := some tn
        total_tracks := some (tot : Int)
        disc_number := some dn }
    | none => md
  else md

/-- A release whose single listed track has no `position` key. -/
def c9Release : Release :=
  { status := "Official"
    primaryType := "Album"
    secondaryTypes := []
    title := some "Alb"
    id := some "rel-1"
    albumArtistName := none
    date := "1999-01-01"
    mediumList := [⟨some 1, some 1, [⟨some "rec-1", some "T", none⟩]⟩] }

/-- Counterexample to C9 as stated: when the matching listing entry has
no `position` key, `int(track.get("position", 0))` yields 0, and the
driver backfills `track_number = 0` — zero stored as a real value. -/
theorem C9_counterexample :
    (backfillTrackNumber
        (resolveMetadata "rec-1"
          { title := some "T", artistName := "A", releaseList := [c9Release] })
        "rec-1" (some (buildTracks c9Release.mediumList))).track_number = some 0 := by
  decide

/-- C9 (amended): provided the remote data is well-formed — every
medium track count positive when present, every release date's
four-character numeral prefix positive when it parses, and every
listing entry carrying positive track and disc positions — each numeric
field of the Resolver's metadata, after the Driver's conditional
backfill, is either unset or a positive integer. -/
theorem C9_numeric_fields_amended (recordingId : String) (rec : RecordingData)
    (listing : Option (List TrackEntry))
    (hcount : ∀ r ∈ rec.releaseList, ∀ m ∈ r.mediumList,
      m.trackCount.all (fun c => decide (0 < c)) = true)
    (hyear : ∀ r ∈ rec.releaseList,
      (pyInt (r.date.take 4)).all (fun y => decide (0 < y)) = true)
    (hentries : listing.all
      (fun ts => decide (∀ t ∈ ts, 0 < t.trackNumber ∧ 0 < t.discNumber)) = true) :
    ∀ n : Int,
      ((backfillTrackNumber (resolveMetadata recordingId rec) recordingId
          listing).track_number = some n ∨
       (backfillTrackNumber (resolveMetadata recordingId rec) recordingId
          listing).total_tracks = some n ∨
       (backfillTrackNumber (resolveMetadata recordingId rec) recordingId
          listing).disc_number = some n ∨
       (backfillTrackNumber (resolveMetadata recordingId rec) recordingId
          listing).year = some n) → 0 < n := by
  intro n hn
  have hbase_tot : ∀ m : Int,
      (selectBestReleaseInfo rec.releaseList).totalTracks = some m → 0 < m := by
    intro m hm
    rw [selectBestReleaseInfo] at hm
    cases hsel : selectBestRelease rec.releaseList with
    | none => rw [hsel] at hm; exact absurd hm (Option.noConfusion)
    | some best =>
      rw [hsel] at hm
      have hbm : best ∈ rec.releaseList := pyMaxBy_mem scoreRelease _ best hsel
      simp only [extractReleaseInfo] at hm
      cases hlast : best.mediumList.getLast? with
      | none => rw [hlast] at hm; exact absurd hm (Option.noConfusion)
      | some med =>
        rw [hlast] at hm
        have hmed : med ∈ best.mediumList := List.mem_of_getLast?_eq_some hlast
        have hmc : med.trackCount = some m := hm
        have := hcount best hbm med hmed
        rw [hmc] at this
        simpa using this
  have hbase_disc : ∀ m : Int,
      (selectBestReleaseInfo rec.releaseList).discNumber = some m → 0 < m := by
    intro m hm
    rw [selectBestReleaseInfo] at hm
    cases hsel : selectBestRelease rec.releaseList with
    | none => rw [hsel] at hm; exact absurd hm (Option.noConfusion)
    | some best =>
      rw [hsel] at hm
      simp only [extractReleaseInfo] at hm
      by_cases hlen : best.mediumList.length > 1
      · rw [if_pos hlen] at hm
        have : ((best.mediumList.length : Int)) = m := Option.some_inj.mp hm
        omega
      · rw [if_neg hlen] at hm
        exact absurd hm (Option.noConfusion)
  have hbase_year : ∀ m : Int,
      (selectBestReleaseInfo rec.releaseList).year = some m → 0 < m := by
    intro m hm
    rw [selectBestReleaseInfo] at hm
    cases hsel : selectBestRelease rec.releaseList with
    | none => rw [hsel] at hm; exact absurd hm (Option.noConfusion)
    | some best =>
      rw [hsel] at hm
      simp only [extractReleaseInfo] at hm
      have hbm : best ∈ rec.releaseList := pyMaxBy_mem scoreRelease _ best hsel
      by_cases hlen : best.date.length ≥ 4
      · rw [if_pos hlen] at hm
        have := hyear best hbm
        rw [hm] at this
        simpa using this
      · rw [if_neg hlen] at hm
        exact absurd hm (Option.noConfusion)
  have hfind : ∀ tn tot dn, findTrackNumber recordingId listing = some (tn, tot, dn) →
      0 < tn ∧ 0 < tot ∧ 0 < dn := by
    intro tn tot dn hf
    cases hl : listing with
    | none => rw [hl] at hf; exact absurd hf (Option.noConfusion)
    | some ts =>
      rw [hl] at hf
      rw [findTrackNumber] at hf
      by_cases hne : ts = []
      · rw [if_pos hne] at hf; exact absurd hf (Option.noConfusion)
      · rw [if_neg hne] at hf
        cases hfd : ts.find? (fun t => decide (t.recordingId = some recordingId)) with
        | none => rw [hfd] at hf; exact absurd hf (Option.noConfusion)
        | some t =>
          rw [hfd] at hf
          have htmem : t ∈ ts := List.mem_of_find?_eq_some hfd
          have hpos : ∀ u ∈ ts, 0 < u.trackNumber ∧ 0 < u.discNumber := by
            have := hentries
            rw [hl] at this
            simpa using this
          obtain ⟨heq1, heq2, heq3⟩ :
              t.trackNumber = tn ∧
              (ts.filter (fun u => decide (u.discNumber = t.discNumber))).length = tot ∧
              t.discNumber = dn := by
            have := Option.some_inj.mp hf
            refine ⟨congrArg Prod.fst this, ?_, ?_⟩
            · exact congrArg (fun p => p.2.1) this
            · exact congrArg (fun p => p.2.2) this
          refine ⟨heq1 ▸ (hpos t htmem).1, ?_, heq3 ▸ (hpos t htmem).2⟩
          rw [← heq2]
          have htf : t ∈ ts.filter (fun u => decide (u.discNumber = t.discNumber)) :=
            List.mem_filter.mpr ⟨htmem, by simp⟩
          have hne2 : ts.filter (fun u => decide (u.discNumber = t.discNumber)) ≠ [] :=
            List.ne_nil_of_mem htf
          exact List.length_pos.mpr hne2
  rw [backfillTrackNumber] at hn
  by_cases hcond : (resolveMetadata recordingId rec).musicbrainz_release_id.getD "" ≠ ""
      ∧ (resolveMetadata recordingId rec).track_number.getD 0 = 0
  · rw [if_pos hcond] at hn
    cases hft : findTrackNumber recordingId listing with
    | none =>
      rw [hft] at hn
      rcases hn with hn | hn | hn | hn
      · exact absurd hn (Option.noConfusion)
      · exact hbase_tot n hn
      · exact hbase_disc n hn
      · exact hbase_year n hn
    | some trip =>
      obtain ⟨tn, tot, dn⟩ := trip
      rw [hft] at hn
      obtain ⟨h1, h2, h3⟩ := hfind tn tot dn hft
      rcases hn with hn | hn | hn | hn
      · dsimp only at hn
        have : tn = n := Option.some_inj.mp hn
        omega
      · dsimp only at hn
        have : ((tot : Int)) = n := Option.some_inj.mp hn
        omega
      · dsimp only at hn
        have : dn = n := Option.some_inj.mp hn
        omega
      · dsimp only at hn
        exact hbase_year n hn
  · rw [if_neg hcond] at hn
    rcases hn with hn | hn | hn | hn
    · exact absurd hn (Option.noConfusion)
    · exact hbase_tot n hn
    · exact hbase_disc n hn
    · exact hbase_year n hn

/-- Witness for the amended C9: well-formed remote data yields the
positive backfilled track number 5. -/
theorem C9_numeric_fields_amended_witness : (0 : Int) < 5 :=
  C9_numeric_fields_amended "rec-9"
    ⟨some "T", "A",
      [⟨"Official", "Album", [], some "Alb", some "rel-2", none, "1999-01-01",
        [⟨some 1, some 2, [⟨some "rec-9", some "T", some 5⟩]⟩]⟩]⟩
    (some [⟨some "rec-9", some "T", 5, 1⟩])
    (by decide) (by decide) (by decide) 5 (Or.inl (by decide))

/-! ## Identifier error handling (src/fingerprint.py lines 47-80 and
src/main.py lines 102-122)

The outcome of the external `acoustid.match` call is made explicit:
either a parsed response (status plus result list), a locally raised
`FingerprintGenerationError`, or a `WebServiceError`. -/

inductive AcoustidOutcome where
  | ok (status : String) (results : List Candidate)
  | fingerprintGenError
  | webServiceError (msg : String)
  deriving DecidableEq, Repr

structure FingerprintError where
  msg : String
  deriving DecidableEq, Repr

/-- `lookup_acoustid` (fingerprint.py lines 47-80): a non-"ok" status
or an empty result list yields `None`; a `FingerprintGenerationError`
from local extraction is caught and also yields `None` (lines 77-78);
only a `WebServiceError` is re-raised as `FingerprintError`. -/
def lookupAcoustid (o : AcoustidOutcome) :
    Except FingerprintError (Option (List Candidate)) :=
  match o with
  | .ok status results =>
    if status ≠ "ok" then .ok none
    else if results = [] then .ok none
    else .ok (some results)
  | .fingerprintGenError => .ok none
  | .webServiceError msg => .error ⟨"AcoustID API 오류: " ++ msg⟩

/-- The Driver's classification of the identification step (main.py
lines 102-122): a raised `FingerprintError` becomes status "error", an
empty lookup becomes "unmatched", and a non-empty one proceeds. -/
def identifyStatus (o : AcoustidOutcome) : String :=
  match lookupAcoustid o with
  | .error _ => "error"
  | .ok none => "unmatched"
  | .ok (some _) => "matched"

/-- Counterexample to C7 as stated: a local fingerprint-extraction
failure inside the lookup is caught (fingerprint.py lines 77-78) and
surfaced as the benign no-match outcome, not as a `FingerprintError`. -/
theorem C7_counterexample :
    lookupAcoustid AcoustidOutcome.fingerprintGenError = Except.ok none ∧
    identifyStatus AcoustidOutcome.fingerprintGenError = "unmatched" ∧
    "unmatched" ≠ "error" :=
  ⟨rfl, rfl, by decide⟩

/-- C7 (amended): the lookup raises `FingerprintError` exactly on a
remote web-service error; it returns `None` exactly when extraction
failed locally, the response status is not "ok", or the match list is
empty — and the Driver maps the error to status "error" and the `None`
result to the benign "unmatched". -/
theorem C7_lookupAcoustid_amended (o : AcoustidOutcome) :
    ((∃ e, lookupAcoustid o = Except.error e) ↔ ∃ m, o = .webServiceError m) ∧
    (lookupAcoustid o = Except.ok none ↔
      (o = .fingerprintGenError ∨ ∃ s rs, o = .ok s rs ∧ (s ≠ "ok" ∨ rs = []))) ∧
    (identifyStatus o = "error" ↔ ∃ m, o = .webServiceError m) ∧
    (identifyStatus o = "unmatched" ↔ lookupAcoustid o = Except.ok none) := by
  cases o with
  | ok s rs =>
    by_cases hs : s = "ok"
    · by_cases hrs : rs = []
      · subst hs; subst hrs
        refine ⟨?_, ?_, ?_, ?_⟩
        · simp [lookupAcoustid]
        · simp [lookupAcoustid]
          exact ⟨"ok", [], ⟨rfl, rfl⟩, Or.inr rfl⟩
        · simp [identifyStatus, lookupAcoustid]
        · simp [identifyStatus, lookupAcoustid]
      · subst hs
        have hlk : lookupAcoustid (.ok "ok" rs) = Except.ok (some rs) := by
          simp [lookupAcoustid, hrs]
        refine ⟨?_, ?_, ?_, ?_⟩
        · simp [hlk]
        · simp [hlk, hrs]
        · simp [identifyStatus, hlk]
        · simp [identifyStatus, hlk]
    · have hlk : lookupAcoustid (.ok s rs) = Except.ok none := by
        simp [lookupAcoustid, hs]
      refine ⟨?_, ?_, ?_, ?_⟩
      · simp [hlk]
      · simp [hlk]
        exact ⟨s, rs, ⟨rfl, rfl⟩, Or.inl hs⟩
      · simp [identifyStatus, hlk]
      · simp [identifyStatus, hlk]
  | fingerprintGenError =>
    refine ⟨?_, ?_, ?_, ?_⟩
    · simp [lookupAcoustid]
    · simp [lookupAcoustid]
    · simp [identifyStatus, lookupAcoustid]
    · simp [identifyStatus, lookupAcoustid]
  | webServiceError m =>
    refine ⟨?_, ?_, ?_, ?_⟩
    · exact ⟨fun _ => ⟨m, rfl⟩, fun _ => ⟨⟨"AcoustID API 오류: " ++ m⟩, rfl⟩⟩
    · simp [lookupAcoustid]
    · constructor
      · intro _; exact ⟨m, rfl⟩
      · intro _; simp [identifyStatus, lookupAcoustid]
    · simp [identifyStatus, lookupAcoustid]

/-! ## Organizer: move semantics (src/organizer.py lines 144-213)

Paths are modelled as `pathlib.Path` exposes them to
`_handle_duplicate`: a parent directory, a stem and a suffix.  The
filesystem is the list of existing file paths; directory creation and
best-effort empty-directory cleanup do not change that set. -/

structure MPath where
  parent : List String
  stem : String
  suffix : String
  deriving DecidableEq, Repr

def pathExists (fs : List MPath) (p : MPath) : Bool := decide (p ∈ fs)

/-- The candidate `parent / f"{stem} ({counter}){suffix}"` of
`_handle_duplicate` (organizer.py line 210). -/
def dupVariant (p : MPath) (counter : Nat) : MPath :=
  { parent := p.parent
    stem := p.stem ++ " (" ++ toString counter ++ ")"
    suffix := p.suffix }

/-- The `while new_path.exists()` loop of `_handle_duplicate`
(organizer.py lines 207-213) on explicit fuel; the tried names are
pairwise distinct, so `fs.length + 2` iterations suffice to reach a
free one. -/
def dupLoop (fs : List MPath) (p : MPath) : Nat → Nat → MPath → MPath
  | _, 0, cur => cur
  | counter, fuel + 1, cur =>
    if pathExists fs cur then dupLoop fs p (counter + 1) fuel (dupVariant p counter)
    else cur

/-- `_handle_duplicate` (organizer.py lines 201-213). -/
def handleDuplicate (fs : List MPath) (p : MPath) : MPath :=
  dupLoop fs p 1 (fs.length + 2) p

/-- The result dict of `move_file` (organizer.py lines 162-198). -/
structure MoveResult where
  source : MPath
  destination : MPath
  moved : Bool
  backedUp : Bool
  skipped : Bool
  deriving DecidableEq, Repr

/-- `move_file` (organizer.py lines 144-198) as a filesystem
transformer: same-path calls are skipped; dry runs change nothing and
report the argument destination verbatim; apply-mode runs resolve
collisions, optionally copy a backup `backup_path / source.name`, and
move the source to the final destination. -/
def moveFile (fs : List MPath) (source destination : MPath) (dry : Bool)
    (backupDir : Option (List String)) : MoveResult × List MPath :=
  if source = destination then
    ({ source := source, destination := destination, moved := false,
       backedUp := false, skipped := true }, fs)
  else if dry then
    ({ source := source, destination := destination, moved := false,
       backedUp := false, skipped := false }, fs)
  else
    let dest := if pathExists fs destination then handleDuplicate fs destination
      else destination
    let fs1 :=
      match backupDir with
      | some bdir => (⟨bdir, source.stem, source.suffix⟩ : MPath) :: fs
      | none => fs
    ({ source := source, destination := dest, moved := true,
       backedUp := backupDir.isSome, skipped := false }, dest :: fs1.erase source)

theorem dupVariant_ne (p : MPath) (k : Nat) : dupVariant p k ≠ p := by
  intro h
  have hstem := congrArg MPath.stem h
  simp only [dupVariant] at hstem
  have hlen := congrArg String.length hstem
  rw [String.length_append, String.length_append, String.length_append] at hlen
  have h2 : (" (" : String).length = 2 := by decide
  have h3 : (")" : String).length = 1 := by decide
  rw [h2, h3] at hlen
  omega

theorem dupLoop_variant (fs : List MPath) (p : MPath) :
    ∀ fuel counter k, ∃ m, dupLoop fs p counter fuel (dupVariant p k) = dupVariant p m := by
  intro fuel
  induction fuel with
  | zero => intro counter k; exact ⟨k, rfl⟩
  | succ n ih =>
    intro counter k
    rw [dupLoop]
    by_cases h : pathExists fs (dupVariant p k) = true
    · rw [if_pos h]; exact ih (counter + 1) counter
    · rw [if_neg h]; exact ⟨k, rfl⟩

theorem handleDuplicate_ne (fs : List MPath) (p : MPath)
    (hex : pathExists fs p = true) : handleDuplicate fs p ≠ p := by
  rw [handleDuplicate]
  show dupLoop fs p 1 (fs.length + 1 + 1) p ≠ p
  rw [dupLoop, if_pos hex]
  obtain ⟨m, hm⟩ := dupLoop_variant fs p (fs.length + 1) 2 1
  rw [hm]
  exact dupVariant_ne p m

/-- C10: with dry_run true and source distinct from destination,
`move_file` touches no filesystem state and reports moved = false,
backed_up = false and the computed template path verbatim; collision
resolution (the " (1)", " (2)" stem suffixing) runs only in apply mode,
so when a file already exists at the destination the path reported by a
dry run differs from the path an apply-mode run would produce. -/
theorem C10_moveFile_dry_run (fs : List MPath) (source destination : MPath)
    (backupDir : Option (List String)) (hne : source ≠ destination) :
    ((moveFile fs source destination true backupDir).1.destination = destination ∧
     (moveFile fs source destination true backupDir).1.moved = false ∧
     (moveFile fs source destination true backupDir).1.backedUp = false ∧
     (moveFile fs source destination true backupDir).2 = fs) ∧
    (pathExists fs destination = true →
      (moveFile fs source destination false backupDir).1.destination ≠ destination) := by
  constructor
  · refine ⟨?_, ?_, ?_, ?_⟩ <;> simp [moveFile, hne]
  · intro hex
    have hres : (moveFile fs source destination false backupDir).1.destination
        = handleDuplicate fs destination := by
      simp [moveFile, hne, hex]
    rw [hres]
    exact handleDuplicate_ne fs destination hex

/-- Witness for C10 at concrete paths with an occupied destination. -/
theorem C10_moveFile_dry_run_witness :
    ((moveFile [⟨["out"], "song", ".mp3"⟩] ⟨["in"], "song", ".mp3"⟩
        ⟨["out"], "song", ".mp3"⟩ true none).1.moved = false ∧
      (moveFile [⟨["out"], "song", ".mp3"⟩] ⟨["in"], "song", ".mp3"⟩
        ⟨["out"], "song", ".mp3"⟩ true none).2 = [⟨["out"], "song", ".mp3"⟩]) ∧
    (moveFile [⟨["out"], "song", ".mp3"⟩] ⟨["in"], "song", ".mp3"⟩
        ⟨["out"], "song", ".mp3"⟩ false none).1.destination ≠ ⟨["out"], "song", ".mp3"⟩ :=
  ⟨⟨((C10_moveFile_dry_run [⟨["out"], "song", ".mp3"⟩] ⟨["in"], "song", ".mp3"⟩
      ⟨["out"], "song", ".mp3"⟩ none (by decide)).1).2.1,
    ((C10_moveFile_dry_run [⟨["out"], "song", ".mp3"⟩] ⟨["in"], "song", ".mp3"⟩
      ⟨["out"], "song", ".mp3"⟩ none (by decide)).1).2.2.2⟩,
   (C10_moveFile_dry_run [⟨["out"], "song", ".mp3"⟩] ⟨["in"], "song", ".mp3"⟩
      ⟨["out"], "song", ".mp3"⟩ none (by decide)).2 (by decide)⟩
